import Mathlib

/-!
Verification development for the `cargo-llvm` build-orchestration CLI
(modules `src/resource.rs` and `src/entry.rs`).

The Rust sources are shallowly embedded as executable Lean definitions:
pure helpers become Lean functions, effectful steps (process execution,
filesystem operations, shell expansion, the network probe) are
parameterised by explicit oracles describing the outside world, and
fallible code returns `Except`.  External crates used by the sources
(`url`, `semver`, `shellexpand`) are modelled by small executable
functions that reproduce their behaviour on the inputs relevant here;
each such model carries a comment saying what is modelled.
-/

/-- Error kinds of the crate.  Modelled from the spec: the `error` module
(`src/error.rs`) is not part of the provided sources; the spec's §7 lists the
kinds `InvalidUrl`, `UnsupportedGenerator`, `UnsupportedBuildType`,
`InvalidEntry`, `HttpError`, `CommandError` and filesystem errors annotated
with the offending path. -/
inductive Err where
  | invalidUrl (url : String)
  | unsupportedGenerator (generator : String)
  | unsupportedBuildType (buildType : String)
  | invalidEntry (name message : String)
  | commandError (command : List String) (exitStatus : Int)
  | fsNotFound (path : String)
  | fsPermissionDenied (path : String)
  deriving DecidableEq, Repr

/-- Splits a character list at the first occurrence of `c`: returns the part
before and the part after, or `none` when `c` does not occur.  This is the
low-level scanning primitive used to model the `url` crate's parsing. -/
def splitFirst (c : Char) : List Char → Option (List Char × List Char)
  | [] => none
  | x :: xs =>
    if x = c then some ([], xs)
    else (splitFirst c xs).map (fun p => (x :: p.1, p.2))

/-- Splits a character list at every occurrence of `c`
(`splitAll '/' "a/b"` gives `["a", "b"]`; the empty list gives `[[]]`). -/
def splitAll (c : Char) : List Char → List (List Char)
  | [] => [[]]
  | x :: xs =>
    if x = c then [] :: splitAll c xs
    else
      match splitAll c xs with
      | [] => [[x]]
      | s :: ss => (x :: s) :: ss

/-- Boolean suffix test on strings, evaluated on the underlying character
lists (models Rust's `str::ends_with`). -/
def endsWithL (s suffix : String) : Bool :=
  suffix.data.isSuffixOf s.data

/-- Parsed form of a URL as used by `resource.rs` through the `url` crate:
scheme, host, path segments, query and fragment.  Modelled from the `url`
crate for URLs of the shape `scheme://host/path?query#fragment`
(userinfo, ports inside the host string, and percent-encoding are carried
verbatim; path normalisation is not modelled). -/
structure ParsedUrl where
  scheme : String
  host : String
  pathSegs : List String
  query : Option String
  fragment : Option String
  deriving DecidableEq, Repr

/-- Splits the part of a URL after `"//"` (and before any fragment) at the
first `'?'` into the host-and-path part and the optional query. -/
def querySplitOf (r : List Char) : List Char × Option (List Char) :=
  match splitFirst '?' r with
  | some p => (p.1, some p.2)
  | none => (r, none)

/-- Fragment-free core of the URL parser: given the scheme and the part
between `"//"` and the fragment, splits off the query at the first `'?'`,
the host at the first `'/'` of what precedes it, and the remaining path
into segments; the fragment of the result is `none`. -/
def parseCore (sch afterSlashes : List Char) : Option ParsedUrl :=
  match splitFirst '/' (querySplitOf afterSlashes).1 with
  | some (host, pathRest) =>
    if host = [] then none
    else
      some
        { scheme := String.mk sch
          host := String.mk host
          pathSegs := (splitAll '/' pathRest).map String.mk
          query := (querySplitOf afterSlashes).2.map String.mk
          fragment := none }
  | none =>
    if (querySplitOf afterSlashes).1 = [] then none
    else
      some
        { scheme := String.mk sch
          host := String.mk (querySplitOf afterSlashes).1
          pathSegs := [""]
          query := (querySplitOf afterSlashes).2.map String.mk
          fragment := none }

/-- Character-level URL parser modelling `url::Url::parse` on
`scheme://host/...` inputs: the scheme is everything before the first `':'`
(and may not contain `'/'`, `'#'` or `'?'`), it must be followed by `"//"`,
the fragment is everything after the first `'#'`, the query everything after
the first `'?'` before the fragment, the host runs to the first `'/'` of the
remainder, and the rest is split into path segments.  A URL with an empty
path is given the single empty segment, matching the crate's normalisation
of `https://host` to path `"/"`. -/
def parseUrlChars (cs : List Char) : Option ParsedUrl :=
  match splitFirst ':' cs with
  | none => none
  | some (sch, rest) =>
    if sch = [] ∨ sch.any (fun c => c = '/' ∨ c = '#' ∨ c = '?') then none
    else
      match rest with
      | c1 :: c2 :: rest2 =>
        if c1 = '/' ∧ c2 = '/' then
          match splitFirst '#' rest2 with
          | some pr =>
            (parseCore sch pr.1).map
              (fun q => { q with fragment := some (String.mk pr.2) })
          | none => parseCore sch rest2
        else none
      | _ => none

/-- URL parsing on strings. -/
def parseUrl (s : String) : Option ParsedUrl :=
  parseUrlChars s.data

/-- Serialises a parsed URL, dropping the fragment.  Models the `url`
crate's serialisation after `set_fragment(None)` as done by
`strip_branch_from_url` in `resource.rs`. -/
def renderNoFrag (p : ParsedUrl) : String :=
  p.scheme ++ "://" ++ p.host ++ "/" ++ String.intercalate "/" p.pathSegs ++
    (match p.query with
     | some q => "?" ++ q
     | none => "")

/-- Last path segment of a parsed URL; `parseUrlChars` always produces at
least one segment, mirroring `url::Url::path_segments().last()` which is
always `Some` for URLs with an authority. -/
def urlFilename (p : ParsedUrl) : String :=
  p.pathSegs.getLastD ""

/-- Embedding of `get_filename_from_url` (resource.rs): parse the URL and
take the last path segment, failing with `InvalidUrl` when unparseable. -/
def get_filename_from_url (url_str : String) : Except Err String :=
  match parseUrl url_str with
  | none => .error (.invalidUrl url_str)
  | some p => .ok (urlFilename p)

/-- Embedding of `get_branch_from_url` (resource.rs): the URL's fragment. -/
def get_branch_from_url (url_str : String) : Except Err (Option String) :=
  match parseUrl url_str with
  | none => .error (.invalidUrl url_str)
  | some p => .ok p.fragment

/-- Embedding of `strip_branch_from_url` (resource.rs): reserialise the URL
with the fragment removed. -/
def strip_branch_from_url (url_str : String) : Except Err String :=
  match parseUrl url_str with
  | none => .error (.invalidUrl url_str)
  | some p => .ok (renderNoFrag p)

/-- Embedding of the `Resource` enum (resource.rs): Subversion repository,
Git repository with optional branch, or tar archive. -/
inductive Resource where
  | Svn (url : String)
  | Git (url : String) (branch : Option String)
  | Tar (url : String)
  deriving DecidableEq, Repr

/-- The fixed archive-suffix list checked first by `Resource::from_url`. -/
def archiveExts : List String :=
  [".tar.gz", ".tar.xz", ".tar.bz2", ".tar.Z", ".tgz", ".taz"]

/-- Builds the Git resource for `url_str` the way `from_url` does: stripped
URL plus extracted branch fragment. -/
def gitResourceOf (url_str : String) : Except Err Resource := do
  let u ← strip_branch_from_url url_str
  let b ← get_branch_from_url url_str
  return .Git u b

/-- Boolean test that one string starts with another, evaluated on the
underlying character lists (models Rust's `str::starts_with`). -/
def startsWithL (s pre : String) : Bool :=
  pre.data.isPrefixOf s.data

/-- The URL's path as one string, the way `url::Url::path()` renders it:
a leading slash followed by the slash-joined segments. -/
def urlPath (p : ParsedUrl) : String :=
  "/" ++ String.intercalate "/" p.pathSegs

/-- Embedding of `Resource::from_url` (resource.rs:59-160).  The heuristics
run in source order: archive suffix on the last path segment, `trunk`
suffix, `.git` suffix, known hosting domains, the `llvm.org` `/svn` and
`/git` path checks, and finally the active `git ls-remote` probe, whose
outcome is supplied as the oracle `probeOk` (the probe's `git init` and
`git remote add` steps always succeed locally; only the listing outcome
matters).  In the source the filename checks run under
`if let Ok(filename) = get_filename_from_url(..)` and the later checks
reparse the URL; both parses are the same pure function here, so a parse
failure yields `InvalidUrl` exactly as the source's `Url::parse` does. -/
def Resource.from_url (probeOk : Bool) (url_str : String) : Except Err Resource :=
  match parseUrl url_str with
  | none => .error (.invalidUrl url_str)
  | some p =>
    let filename := urlFilename p
    if archiveExts.any (fun ext => endsWithL filename ext) then
      .ok (.Tar url_str)
    else if endsWithL filename "trunk" then
      .ok (.Svn url_str)
    else if endsWithL filename ".git" then
      gitResourceOf url_str
    else if p.host = "github.com" ∨ p.host = "gitlab.com" then
      gitResourceOf url_str
    else if p.host = "llvm.org" ∧ startsWithL (urlPath p) "/svn" then
      .ok (.Svn url_str)
    else if p.host = "llvm.org" ∧ startsWithL (urlPath p) "/git" then
      gitResourceOf url_str
    else if probeOk then
      gitResourceOf url_str
    else
      .ok (.Svn url_str)

/-- Embedding of the `CMakeGenerator` enum (entry.rs). -/
inductive CMakeGenerator where
  | Platform
  | Makefile
  | Ninja
  | VisualStudio
  | VisualStudioWin64
  deriving DecidableEq, Repr

/-- Embedding of `CMakeGenerator::option` (entry.rs:144-157): the `-G`
flags passed to the cmake generation step. -/
def CMakeGenerator.option : CMakeGenerator → List String
  | .Platform => []
  | .Makefile => ["-G", "Unix Makefiles"]
  | .Ninja => ["-G", "Ninja"]
  | .VisualStudio => ["-G", "Visual Studio 15 2017"]
  | .VisualStudioWin64 => ["-G", "Visual Studio 15 2017 Win64", "-Thost=x64"]

/-- Embedding of the `BuildType` enum (entry.rs). -/
inductive BuildType where
  | Debug
  | Release
  | RelWithDebInfo
  | MinSizeRel
  deriving DecidableEq, Repr

/-- Rendering of a build type the way Rust's `format!` with the Debug
formatter prints the `BuildType` variants. -/
def BuildType.show : BuildType → String
  | .Debug => "Debug"
  | .Release => "Release"
  | .RelWithDebInfo => "RelWithDebInfo"
  | .MinSizeRel => "MinSizeRel"

/-- Embedding of `CMakeGenerator::build_option` (entry.rs:160-170): extra
flags of the `cmake --build` step, depending on the generator family. -/
def CMakeGenerator.build_option (g : CMakeGenerator) (nproc : Nat)
    (build_type : BuildType) : List String :=
  match g with
  | .VisualStudioWin64 | .VisualStudio => ["--config", build_type.show]
  | .Platform => []
  | .Makefile | .Ninja => ["--", "-j", Nat.repr nproc]

/-- Embedding of the `EntrySetting` struct (entry.rs:202-225).  The
`option` field is a `HashMap<String, String>` in the source; it is modelled
as the list of key/value pairs in the map's iteration order, which is what
the `configure` loop consumes. -/
structure EntrySetting where
  url : Option String := none
  path : Option String := none
  target : List String := []
  generator : CMakeGenerator := .Platform
  build_type : BuildType := .Release
  option : List (String × String) := []
  deriving DecidableEq, Repr

/-- Semantic version as used through the `semver` crate's `Version` for the
entry names appearing here (plain `major.minor.patch` triples; prerelease
and build metadata are not used by the catalog). -/
structure SemVersion where
  major : Nat
  minor : Nat
  patch : Nat
  deriving DecidableEq, Repr

/-- Rendering of a version, as the `semver` crate's `Display` does for
plain triples. -/
def SemVersion.show (v : SemVersion) : String :=
  Nat.repr v.major ++ "." ++ Nat.repr v.minor ++ "." ++ Nat.repr v.patch

/-- Embedding of the `Entry` enum (entry.rs:230-244): a named buildable
source, remote (URL) or local (path). -/
inductive Entry where
  | Remote (name : String) (version : Option SemVersion) (url : String)
      (setting : EntrySetting)
  | Local (name : String) (version : Option SemVersion) (path : String)
      (setting : EntrySetting)
  deriving DecidableEq, Repr

/-- Embedding of `Entry::name`. -/
def Entry.name : Entry → String
  | .Remote name _ _ _ => name
  | .Local name _ _ _ => name

/-- Embedding of `Entry::version`. -/
def Entry.version : Entry → Option SemVersion
  | .Remote _ version _ _ => version
  | .Local _ version _ _ => version

/-- Embedding of `Entry::setting`. -/
def Entry.setting : Entry → EntrySetting
  | .Remote _ _ _ setting => setting
  | .Local _ _ _ setting => setting

/-- Outcome of `Entry::parse_setting`, which either returns a `Result` or
panics: `panicked` stands for the `unwrap()` panic on a failed shell
expansion of the configured path. -/
inductive EntryParse where
  | ok (entry : Entry)
  | err (name message : String)
  | panicked
  deriving DecidableEq, Repr

/-- Embedding of `Entry::parse_setting` (entry.rs:322-349).  The behaviour
of `shellexpand::full` (tilde and environment-variable expansion against
the ambient environment) is supplied as the oracle `expand`; the source
calls `.unwrap()` on its result, so a failed expansion panics. -/
def Entry.parse_setting (expand : String → Option String) (name : String)
    (version : Option SemVersion) (setting : EntrySetting) : EntryParse :=
  if setting.path.isSome ∧ setting.url.isSome then
    .err name "One of Path or URL are allowed"
  else
    match setting.path with
    | some p =>
      match expand p with
      | some expanded => .ok (.Local name version expanded setting)
      | none => .panicked
    | none =>
      match setting.url with
      | some url => .ok (.Remote name version url setting)
      | none => .err name "Path nor URL are not found"

/-- Embedding of `Entry::official` (entry.rs:307-320): a remote entry for
an official release, with the deterministic GitHub archive URL template and
otherwise default settings.  In the source this goes through
`parse_setting(..).unwrap()`, which always succeeds since only `url` is
set; the resulting `Entry::Remote` is written out directly. -/
def Entry.official (major minor patch : Nat) : Entry :=
  let version : SemVersion := ⟨major, minor, patch⟩
  let base_url :=
    "https://github.com/llvm/llvm-project/archive/refs/tags/llvmorg-" ++
      version.show
  let setting : EntrySetting := { url := some (base_url ++ ".tar.gz") }
  .Remote version.show (some version) (base_url ++ ".tar.gz") setting

/-- Embedding of `official_releases` (entry.rs:254-273): the fixed built-in
catalog, in source order. -/
def official_releases : List Entry :=
  [ Entry.official 18 1 0, Entry.official 17 0 2, Entry.official 17 0 0,
    Entry.official 16 0 6, Entry.official 16 0 0, Entry.official 15 0 7,
    Entry.official 15 0 0, Entry.official 14 0 6, Entry.official 14 0 0,
    Entry.official 13 0 0, Entry.official 12 0 1, Entry.official 12 0 0,
    Entry.official 11 1 0, Entry.official 11 0 0, Entry.official 10 0 1,
    Entry.official 10 0 0 ]

/-- Comparison of semantic versions (lexicographic on
major, minor, patch), as the `semver` crate's `Ord` on plain triples. -/
def SemVersion.le (a b : SemVersion) : Bool :=
  a.major < b.major ∨
    (a.major = b.major ∧
      (a.minor < b.minor ∨ (a.minor = b.minor ∧ a.patch ≤ b.patch)))

/-- A parsed semantic-version requirement.  Modelled from the `semver`
crate: a bare `major.minor.patch` string parses to the default caret
requirement (`^major.minor.patch`). -/
structure SemVerReq where
  major : Nat
  minor : Nat
  patch : Nat
  deriving DecidableEq, Repr

/-- Parses a run of decimal digits into a number; `none` on the empty list
or any non-digit. -/
def parseNatChars (cs : List Char) : Option Nat :=
  if cs = [] ∨ cs.any (fun c => ¬ c.isDigit) then none
  else some (cs.foldl (fun n c => n * 10 + (c.toNat - 48)) 0)

/-- Modelled from the `semver` crate's `VersionReq::parse`, for the inputs
relevant to the catalog: a bare numeric `major.minor.patch` string parses
to the caret requirement on that triple; other requirement syntaxes
(comparators, wildcards, pre-releases) are not modelled and yield `none`
like unparseable strings do. -/
def parseReq (s : String) : Option SemVerReq :=
  match (splitAll '.' s.data).map parseNatChars with
  | [some a, some b, some c] => some ⟨a, b, c⟩
  | _ => none

/-- Modelled from the `semver` crate's `VersionReq::matches` for a caret
requirement with nonzero major (every catalog entry has major ≥ 10): the
major components must agree and the version must be at least the
requirement's triple. -/
def SemVerReq.matches (r : SemVerReq) (v : SemVersion) : Bool :=
  v.major = r.major ∧ SemVersion.le ⟨r.major, r.minor, r.patch⟩ v

/-- Embedding of the lookup loop of `load_entry` (entry.rs:283-302), as a
function of the already-merged entry list: for each entry in order, return
it on exact name equality, otherwise return it when the query parses as a
version requirement matched by the entry's version; when the list is
exhausted, fail with `InvalidEntry`. -/
def load_entryList : List Entry → String → Except Err Entry
  | [], name => .error (.invalidEntry name "Entry not found")
  | e :: rest, name =>
    if e.name = name then .ok e
    else
      match e.version, parseReq name with
      | some v, some req =>
        if req.matches v then .ok e else load_entryList rest name
      | _, _ => load_entryList rest name

/-- Embedding of `load_entries` (entry.rs:275-281) composed with
`load_entry`: the user-declared entries (read from `entry.toml`, supplied
here as a list) are loaded first and the built-in releases are appended,
then the merged sequence is searched. -/
def load_entry (userEntries : List Entry) (name : String) : Except Err Entry :=
  load_entryList (userEntries ++ official_releases) name

/-- Predicate under which the `load_entry` loop stops at an entry: exact
name match, or version-requirement match of the query against the entry's
parsed version. -/
def entryHit (name : String) (e : Entry) : Bool :=
  decide (e.name = name) ||
    (match e.version, parseReq name with
     | some v, some req => req.matches v
     | _, _ => false)

/-- Path join as `std::path::PathBuf::push` behaves: joining an absolute
path (leading slash) replaces the base, otherwise the component is appended
after a separator. -/
def pathJoin (a b : String) : String :=
  match b.data with
  | '/' :: _ => b
  | _ => a ++ "/" ++ b

/-- The cache root directory (`dirs::cache_dir()` joined with the
application name).  The platform directory is modelled as a fixed absolute
root; `config.rs` only ever joins entry names under it. -/
def cacheRootDir : String := "/cache-root/cargo-llvm"

/-- The data root directory (`dirs::data_dir()` joined with the application
name), modelled as a fixed absolute root. -/
def dataRootDir : String := "/data-root/cargo-llvm"

/-- Embedding of `Entry::src_dir` (entry.rs:424-429): the cache directory
joined with the entry name for remote entries, the configured path for
local entries. -/
def Entry.src_dir : Entry → String
  | .Remote name _ _ _ => pathJoin cacheRootDir name
  | .Local _ _ path _ => path

/-- Embedding of `Entry::prefix` (entry.rs:447-449): the data directory
joined with the entry name. -/
def Entry.prefixDir (e : Entry) : String :=
  pathJoin dataRootDir e.name

/-- Embedding of the flag construction of `Entry::configure`
(entry.rs:476-518): generator options, then the source directory, the
install-prefix define (the source joins `data_dir()` with the already
absolute `prefix()`, so the prefix wins), the build-type define, the
opportunistic `ccache` and `lld` defines when those tools are found on the
path (supplied as the oracles `ccache` and `lld` for `which::which`), the
target-architectures define when the target list is nonempty, and finally
one define per free-form option in the map's iteration order. -/
def configure_opts (e : Entry) (ccache lld : Bool) : List String :=
  let setting := e.setting
  let opts := setting.generator.option
  let opts := opts ++ [e.src_dir]
  let opts := opts ++
    ["-DCMAKE_INSTALL_PREFIX=" ++ pathJoin dataRootDir e.prefixDir]
  let opts := opts ++ ["-DCMAKE_BUILD_TYPE=" ++ setting.build_type.show]
  let opts := opts ++ (if ccache then ["-DLLVM_CCACHE_BUILD=ON"] else [])
  let opts := opts ++ (if lld then ["-DLLVM_ENABLE_LLD=ON"] else [])
  let opts := opts ++
    (if setting.target.isEmpty then []
     else ["-DLLVM_TARGETS_TO_BUILD=" ++ String.intercalate ";" setting.target])
  opts ++ setting.option.map (fun kv => "-D" ++ kv.1 ++ "=" ++ kv.2)

/-- The full command line constructed by `Entry::configure`: the `cmake`
program followed by the flags. -/
def configure_cmd_line (e : Entry) (ccache lld : Bool) : List String :=
  "cmake" :: configure_opts e ccache lld

/-- The command line of the build-and-install step of `Entry::build`
(entry.rs:451-474): `cmake --build <build-dir> --target install` followed
by the generator-dependent extra flags. -/
def build_cmd_line (e : Entry) (nproc : Nat) : List String :=
  ["cmake", "--build", pathJoin e.src_dir "build", "--target", "install"] ++
    e.setting.generator.build_option nproc e.setting.build_type

/-- Modelled from the spec: `check_run` of the missing `error` module runs
a child process (whose exit status is given by the oracle `exec`) and turns
any non-zero exit into a fatal `CommandError` carrying the command line. -/
def check_run (exec : List String → Int) (cmd : List String) :
    Except Err Unit :=
  if exec cmd = 0 then .ok () else .error (.commandError cmd (exec cmd))

/-- Commands constructed and commands actually executed during a run. -/
structure CmdTrace where
  constructed : List (List String)
  executed : List (List String)
  deriving DecidableEq, Repr

/-- Embedding of `Entry::configure` (entry.rs:476-518) as a state-passing
run: the function builds the cmake generation command, logs it, and returns
`Ok` — the source contains no `check_run` (or any other execution) of the
constructed command, so the trace records it as constructed but not
executed, and the oracle `exec` is never consulted. -/
def configureRun (e : Entry) (ccache lld : Bool) :
    Except Err Unit × CmdTrace :=
  (.ok (), ⟨[configure_cmd_line e ccache lld], []⟩)

/-- Embedding of `Entry::build` (entry.rs:451-474) as a state-passing run:
first `configure`, then the build-and-install command executed through
`check_run` against the exit-status oracle `exec`. -/
def buildRun (exec : List String → Int) (e : Entry) (nproc : Nat)
    (ccache lld : Bool) : Except Err Unit × CmdTrace :=
  match configureRun e ccache lld with
  | (.error er, t) => (.error er, t)
  | (.ok _, t) =>
    let bc := build_cmd_line e nproc
    (check_run exec bc, ⟨t.constructed ++ [bc], t.executed ++ [bc]⟩)

/-- State of one directory in the filesystem model: absent, or present and
removable, or present but protected (deletion fails with a permission
error). -/
inductive DirState where
  | absent
  | present (removable : Bool)
  deriving DecidableEq, Repr

/-- Filesystem model for the directory-lifecycle operations: the state of
every path. -/
def FsModel := String → DirState

/-- Models `std::fs::remove_dir_all` with the path annotation of the
missing `error` module's `.with(&path)` (spec §7: filesystem errors are
annotated with the offending path): deleting an absent directory fails with
`NotFound`, deleting a protected one fails with a permission error, and
otherwise the directory is removed. -/
def remove_dir_all (fs : FsModel) (path : String) : Except Err FsModel :=
  match fs path with
  | .absent => .error (.fsNotFound path)
  | .present false => .error (.fsPermissionDenied path)
  | .present true => .ok (fun q => if q = path then .absent else fs q)

/-- Models `std::fs::create_dir_all`: the directory is created (as
removable). -/
def create_dir_all (fs : FsModel) (path : String) : FsModel :=
  fun q => if q = path then .present true else fs q

/-- Embedding of `Entry::clean_cache_dir` (entry.rs:392-397): remove the
source directory, surfacing the filesystem error annotated with the path. -/
def Entry.clean_cache_dir (fs : FsModel) (e : Entry) : Except Err FsModel :=
  remove_dir_all fs e.src_dir

/-- Embedding of `Entry::build_dir` (entry.rs:431-438): the `build`
subdirectory of the source directory, created lazily when absent. -/
def Entry.build_dir (fs : FsModel) (e : Entry) : String × FsModel :=
  let dir := pathJoin e.src_dir "build"
  match fs dir with
  | .absent => (dir, create_dir_all fs dir)
  | _ => (dir, fs)

/-- Embedding of `Entry::clean_build_dir` (entry.rs:440-445): obtain the
build directory (creating it when absent) and remove it. -/
def Entry.clean_build_dir (fs : FsModel) (e : Entry) : Except Err FsModel :=
  let d := e.build_dir fs
  remove_dir_all d.2 d.1

/-- Result of `entry.unpack(&target)` for one archive entry in the tar
extraction loop. -/
inductive UnpackOutcome where
  | ok
  | alreadyExists
  | otherErr
  deriving DecidableEq, Repr

/-- One item yielded by the archive's entry iterator: whether the iterator
item itself was `Ok`, the entry's path (`none` models a path that is not
valid unicode), and the outcome `entry.unpack` would produce at its target.
Paths are lists of components, as `std::path::Path::components` yields
them. -/
structure TarItem where
  readOk : Bool
  path : Option (List String)
  unpack : UnpackOutcome
  deriving DecidableEq, Repr

/-- Target remapping of the tar extraction loop (resource.rs:231-234):
start from the destination joined with the tool name and push every path
component but the first. -/
def remapTarget (dest : List String) (toolName : String)
    (path : List String) : List String :=
  (path.drop 1).foldl (fun t comp => t ++ [comp]) (dest ++ [toolName])

/-- What the extraction loop did: the targets actually unpacked, the
targets whose unpack failed with `AlreadyExists` (logged at debug level and
tolerated), and the targets whose unpack failed otherwise (logged as a
warning and skipped). -/
structure ExtractResult where
  unpacked : List (List String)
  tolerated : List (List String)
  warned : List (List String)
  deriving DecidableEq, Repr

/-- Embedding of the per-entry extraction loop of `Resource::download` for
tar archives (resource.rs:225-243).  An iterator item that is not `Ok`
panics through `expect("Invalid tar entry")`, and a path that is not valid
unicode panics through `expect("Invalid unicode in filename")` — both
modelled as `none`, aborting the whole loop.  Otherwise the entry's target
is computed by `remapTarget` and the unpack outcome is dispatched: success
unpacks, `AlreadyExists` is logged at debug level, any other error is
logged as a warning; in all three cases the loop continues. -/
def extractEntries (dest : List String) (toolName : String) :
    List TarItem → Option ExtractResult
  | [] => some ⟨[], [], []⟩
  | item :: rest =>
    if ¬ item.readOk then none
    else
      match item.path with
      | none => none
      | some p =>
        match extractEntries dest toolName rest with
        | none => none
        | some r =>
          let target := remapTarget dest toolName p
          match item.unpack with
          | .ok => some ⟨target :: r.unpacked, r.tolerated, r.warned⟩
          | .alreadyExists => some ⟨r.unpacked, target :: r.tolerated, r.warned⟩
          | .otherErr => some ⟨r.unpacked, r.tolerated, target :: r.warned⟩

/-- A character absent from a list is never found by `splitFirst`. -/
theorem splitFirst_eq_none {c : Char} : ∀ {l : List Char}, c ∉ l →
    splitFirst c l = none
  | [], _ => rfl
  | x :: xs, h => by
    have hx : ¬ x = c := fun e => h (e ▸ List.mem_cons_self x xs)
    have hxs : c ∉ xs := fun m => h (List.mem_cons_of_mem x m)
    simp [splitFirst, hx, splitFirst_eq_none hxs]

/-- Soundness of `splitFirst`: a successful split decomposes the list and
the prefix part misses the character. -/
theorem splitFirst_sound {c : Char} : ∀ {l a b : List Char},
    splitFirst c l = some (a, b) → l = a ++ c :: b ∧ c ∉ a
  | [], _, _, h => by cases h
  | x :: xs, a, b, h => by
    by_cases hx : x = c
    · simp [splitFirst, hx] at h
      obtain ⟨h1, h2⟩ := h
      subst h1; subst h2
      simp [hx]
    · simp only [splitFirst, if_neg hx] at h
      cases hs : splitFirst c xs with
      | none => rw [hs] at h; cases h
      | some pr =>
        rw [hs] at h
        cases h
        obtain ⟨h1, h2⟩ := splitFirst_sound hs
        refine ⟨by simp [h1], ?_⟩
        intro hm
        rcases List.mem_cons.mp hm with hm | hm
        · exact hx hm.symm
        · exact h2 hm

/-- Splitting a list whose first part misses the character and is followed
by exactly that character. -/
theorem splitFirst_append_self {c : Char} : ∀ {a : List Char}
    (b : List Char), c ∉ a → splitFirst c (a ++ c :: b) = some (a, b)
  | [], b, _ => by simp [splitFirst]
  | x :: xs, b, h => by
    have hx : ¬ x = c := fun e => h (e ▸ List.mem_cons_self x xs)
    have hxs : c ∉ xs := fun m => h (List.mem_cons_of_mem x m)
    simp [splitFirst, hx, splitFirst_append_self b hxs]

/-- The fragment-free parser core never produces a fragment. -/
theorem parseCore_fragment_none {sch r : List Char} {q : ParsedUrl}
    (h : parseCore sch r = some q) : q.fragment = none := by
  unfold parseCore at h
  rcases hs : splitFirst '/' (querySplitOf r).1 with _ | ⟨host, pathRest⟩ <;>
      rw [hs] at h <;> dsimp only at h <;> split at h <;>
      cases h <;> rfl

/-- Appending to the scanned list past a successful `splitFirst` extends
only the part after the found character. -/
theorem splitFirst_append_found {c : Char} : ∀ {l a b : List Char}
    (t : List Char), splitFirst c l = some (a, b) →
    splitFirst c (l ++ t) = some (a, b ++ t)
  | [], _, _, _, h => by cases h
  | x :: xs, a, b, t, h => by
    by_cases hx : x = c
    · simp [splitFirst, hx] at h ⊢
      obtain ⟨h1, h2⟩ := h
      subst h1; subst h2
      exact ⟨rfl, rfl⟩
    · simp only [splitFirst, if_neg hx, List.cons_append] at h ⊢
      cases hs : splitFirst c xs with
      | none => rw [hs] at h; cases h
      | some pr =>
        rw [hs] at h
        cases h
        rw [show xs.append t = xs ++ t from rfl, splitFirst_append_found t hs]
        rfl

/-- Extending a parseable fragment-free URL with `'#'` and a fragment
reparses to the same URL with that fragment; the original URL's fragment is
`none`. -/
theorem parseUrlChars_append_frag {cs fs : List Char} {p : ParsedUrl}
    (hn : '#' ∉ cs) (hp : parseUrlChars cs = some p) :
    parseUrlChars (cs ++ '#' :: fs) =
        some { p with fragment := some (String.mk fs) } ∧
      p.fragment = none := by
  unfold parseUrlChars at hp ⊢
  cases hsp : splitFirst ':' cs with
  | none => rw [hsp] at hp; cases hp
  | some pr =>
    obtain ⟨sch, rest⟩ := pr
    rw [hsp] at hp
    rw [splitFirst_append_found ('#' :: fs) hsp]
    dsimp only at hp ⊢
    by_cases hg : sch = [] ∨ sch.any (fun c => c = '/' ∨ c = '#' ∨ c = '?')
    · rw [if_pos hg] at hp; cases hp
    · rw [if_neg hg] at hp
      rw [if_neg hg]
      obtain ⟨hcs, -⟩ := splitFirst_sound hsp
      have hrest : '#' ∉ rest := by
        intro hm
        exact hn (hcs ▸ List.mem_append_right sch (List.mem_cons_of_mem ':' hm))
      rcases rest with _ | ⟨c1, rest'⟩
      · cases hp
      rcases rest' with _ | ⟨c2, rest2⟩
      · cases hp
      simp only [List.cons_append]
      dsimp only at hp ⊢
      by_cases hsl : c1 = '/' ∧ c2 = '/'
      · rw [if_pos hsl] at hp
        rw [if_pos hsl]
        have hrest2 : '#' ∉ rest2 := by
          intro hm
          exact hrest (List.mem_cons_of_mem c1 (List.mem_cons_of_mem c2 hm))
        rw [splitFirst_eq_none hrest2] at hp
        dsimp only at hp
        rw [splitFirst_append_self fs hrest2]
        dsimp only
        rw [hp]
        exact ⟨rfl, parseCore_fragment_none hp⟩
      · rw [if_neg hsl] at hp; cases hp

/-- Two incomparable suffixes cannot both end the same string. -/
theorem endsWithL_false_of_incomparable {f : String} (s t : String)
    (hg : endsWithL f s = true)
    (h1 : ¬ (s.data <:+ t.data)) (h2 : ¬ (t.data <:+ s.data)) :
    endsWithL f t = false := by
  rw [endsWithL] at hg ⊢
  have hs := List.isSuffixOf_iff_suffix.mp hg
  cases hx : t.data.isSuffixOf f.data with
  | false => rfl
  | true =>
    have ht := List.isSuffixOf_iff_suffix.mp hx
    rcases List.suffix_or_suffix_of_suffix hs ht with h | h
    · exact absurd h h1
    · exact absurd h h2

/-- A filename ending in `.git` matches neither the archive-suffix list nor
the `trunk` suffix, so the earlier rules of `from_url` cannot fire. -/
theorem git_suffix_exclusive {f : String} (hg : endsWithL f ".git" = true) :
    archiveExts.any (fun ext => endsWithL f ext) = false ∧
      endsWithL f "trunk" = false := by
  refine ⟨?_, endsWithL_false_of_incomparable ".git" "trunk" hg
    (by decide) (by decide)⟩
  simp only [archiveExts, List.any_cons, List.any_nil, Bool.or_eq_false_iff]
  exact ⟨endsWithL_false_of_incomparable ".git" ".tar.gz" hg (by decide) (by decide),
    endsWithL_false_of_incomparable ".git" ".tar.xz" hg (by decide) (by decide),
    endsWithL_false_of_incomparable ".git" ".tar.bz2" hg (by decide) (by decide),
    endsWithL_false_of_incomparable ".git" ".tar.Z" hg (by decide) (by decide),
    endsWithL_false_of_incomparable ".git" ".tgz" hg (by decide) (by decide),
    endsWithL_false_of_incomparable ".git" ".taz" hg (by decide) (by decide), trivial⟩

/-- Unfolding of `gitResourceOf`: both helper calls parse the same URL, so
the two `?`-propagated parses collapse into one. -/
theorem gitResourceOf_eq (u : String) :
    gitResourceOf u =
      match parseUrl u with
      | none => .error (.invalidUrl u)
      | some p => .ok (.Git (renderNoFrag p) p.fragment) := by
  unfold gitResourceOf strip_branch_from_url get_branch_from_url
  cases parseUrl u <;> rfl

/-- C6: for every URL string whose last path segment ends with one of the
archive suffixes `.tar.gz`, `.tar.xz`, `.tar.bz2`, `.tar.Z`, `.tgz`,
`.taz`, `Resource::from_url` returns the `Tar` variant with the URL stored
unchanged; since it holds for every host, every further URL shape and both
outcomes of the network probe, this first rule takes precedence over all
the later heuristics. -/
theorem from_url_archive_suffix (u : String) (p : ParsedUrl) (probeOk : Bool)
    (hp : parseUrl u = some p)
    (hs : archiveExts.any (fun ext => endsWithL (urlFilename p) ext) = true) :
    Resource.from_url probeOk u = .ok (.Tar u) := by
  unfold Resource.from_url
  rw [hp]
  dsimp only
  rw [if_pos hs]

/-- Witness for the archive-suffix rule evaluated at a GitHub release URL:
the host rule would also fire, but the archive rule wins. -/
theorem from_url_archive_suffix_witness :
    Resource.from_url false
        "https://github.com/llvm/llvm-project/archive/refs/tags/llvmorg-18.1.0.tar.gz" =
      .ok (.Tar
        "https://github.com/llvm/llvm-project/archive/refs/tags/llvmorg-18.1.0.tar.gz") :=
  from_url_archive_suffix _
    ⟨"https", "github.com",
      ["llvm", "llvm-project", "archive", "refs", "tags",
        "llvmorg-18.1.0.tar.gz"], none, none⟩
    false rfl rfl

/-- C7: for every URL whose last path segment ends with `.git`,
`Resource::from_url` returns the Git variant whose `branch` is the URL's
fragment when one is present (`none` otherwise) and whose stored URL is the
input URL with the fragment removed.  `base` is the fragment-free part of
the input (the hypotheses say it parses, contains no `'#'`, and
reserialises to itself, i.e. it is in the parser's canonical form): with a
fragment the input is `base ++ "#" ++ frag` and the stored URL is exactly
`base`; without one the URL is stored unchanged and the branch is `none`. -/
theorem from_url_git_suffix (base frag : String) (p : ParsedUrl)
    (probeOk : Bool)
    (hn : '#' ∉ base.data)
    (hp : parseUrl base = some p)
    (hr : renderNoFrag p = base)
    (hg : endsWithL (urlFilename p) ".git" = true) :
    Resource.from_url probeOk (base ++ "#" ++ frag) =
        .ok (.Git base (some frag)) ∧
      Resource.from_url probeOk base = .ok (.Git base none) := by
  obtain ⟨hx, htr⟩ := git_suffix_exclusive hg
  obtain ⟨hp2, hfr⟩ := parseUrlChars_append_frag hn hp
  have hmk : String.mk frag.data = frag := rfl
  have hdata : (base ++ "#" ++ frag).data = base.data ++ '#' :: frag.data := by
    have h1 : "#".data = ['#'] := rfl
    simp [String.data_append, h1]
  have hparse2 : parseUrl (base ++ "#" ++ frag) =
      some { p with fragment := some frag } := by
    rw [parseUrl, hdata, hp2, hmk]
  have hfile : urlFilename { p with fragment := some frag } = urlFilename p :=
    rfl
  constructor
  · unfold Resource.from_url
    rw [hparse2]
    dsimp only
    rw [hfile, if_neg (by rw [hx]; exact Bool.false_ne_true),
      if_neg (by rw [htr]; exact Bool.false_ne_true), if_pos hg,
      gitResourceOf_eq, hparse2]
    dsimp only
    rw [show renderNoFrag { p with fragment := some frag } = base from hr]
  · unfold Resource.from_url
    rw [hp]
    dsimp only
    rw [if_neg (by rw [hx]; exact Bool.false_ne_true),
      if_neg (by rw [htr]; exact Bool.false_ne_true), if_pos hg,
      gitResourceOf_eq, hp]
    dsimp only
    rw [hr, hfr]

/-- Witness for the `.git` rule at the spec's example URL, with and without
a fragment. -/
theorem from_url_git_suffix_witness :
    Resource.from_url true "https://example.com/x.git#feature" =
        .ok (.Git "https://example.com/x.git" (some "feature")) ∧
      Resource.from_url true "https://example.com/x.git" =
        .ok (.Git "https://example.com/x.git" none) :=
  from_url_git_suffix "https://example.com/x.git" "feature"
    ⟨"https", "example.com", ["x.git"], none, none⟩ true
    (by decide) rfl rfl rfl

/-- Folding components onto an accumulator with repeated `push` is list
append. -/
theorem foldl_push_eq_append (acc : List String) (l : List String) :
    l.foldl (fun t comp => t ++ [comp]) acc = acc ++ l := by
  induction l generalizing acc with
  | nil => simp
  | cons x xs ih => simp [List.foldl_cons, ih]

/-- C8: archive extraction remaps every entry path by dropping exactly its
first component and re-rooting the remainder under the tool-name
subdirectory of the destination; in particular a single-entry archive
`top/a/b.txt` unpacked with tool name `llvm` lands at `dest/llvm/a/b.txt`. -/
theorem extract_remaps_drop_first (dest : List String) (toolName : String)
    (path : List String) :
    remapTarget dest toolName path = dest ++ [toolName] ++ path.drop 1 ∧
      extractEntries dest toolName [⟨true, some path, .ok⟩] =
        some ⟨[dest ++ [toolName] ++ path.drop 1], [], []⟩ ∧
      remapTarget dest "llvm" ["top", "a", "b.txt"] =
        dest ++ ["llvm", "a", "b.txt"] := by
  refine ⟨foldl_push_eq_append (dest ++ [toolName]) (path.drop 1), ?_, ?_⟩
  · simp [extractEntries, remapTarget, foldl_push_eq_append]
  · simp [remapTarget, foldl_push_eq_append]

/-- C2: for a fixed entry (hence a fixed `EntrySetting`, including the
iteration order of the free-form option map) and a fixed accelerator-tool
environment, the constructed cmake generation command line is determined —
`configure_cmd_line` is a pure function, so any two invocations agree — and
its flags come in the fixed order: generator options, source directory,
install-prefix define, build-type define, accelerator defines, target
define, free-form defines. -/
theorem configure_cmd_line_fixed_order (e : Entry) (ccache lld : Bool) :
    configure_cmd_line e ccache lld =
      "cmake" ::
        (e.setting.generator.option ++
          [e.src_dir] ++
          ["-DCMAKE_INSTALL_PREFIX=" ++ pathJoin dataRootDir e.prefixDir] ++
          ["-DCMAKE_BUILD_TYPE=" ++ e.setting.build_type.show] ++
          ((if ccache then ["-DLLVM_CCACHE_BUILD=ON"] else []) ++
            (if lld then ["-DLLVM_ENABLE_LLD=ON"] else [])) ++
          (if e.setting.target.isEmpty then []
           else ["-DLLVM_TARGETS_TO_BUILD=" ++
              String.intercalate ";" e.setting.target]) ++
          e.setting.option.map (fun kv => "-D" ++ kv.1 ++ "=" ++ kv.2)) := by
  simp [configure_cmd_line, configure_opts, List.append_assoc]

/-- C9: origin exclusivity of settings validation: both `path` and `url`
set fails with `InvalidEntry`, neither set fails with `InvalidEntry`, and
otherwise the constructed variant is `Local` exactly when `path` was
present (with the shell-expanded path) and `Remote` exactly when `url` was
present. -/
theorem parse_setting_origin_exclusivity (expand : String → Option String)
    (name : String) (version : Option SemVersion) (setting : EntrySetting) :
    (setting.path.isSome ∧ setting.url.isSome →
        Entry.parse_setting expand name version setting =
          .err name "One of Path or URL are allowed") ∧
    (setting.path = none → setting.url = none →
        Entry.parse_setting expand name version setting =
          .err name "Path nor URL are not found") ∧
    (∀ p expanded, setting.path = some p → setting.url = none →
        expand p = some expanded →
        Entry.parse_setting expand name version setting =
          .ok (.Local name version expanded setting)) ∧
    (∀ u, setting.url = some u → setting.path = none →
        Entry.parse_setting expand name version setting =
          .ok (.Remote name version u setting)) := by
  refine ⟨fun h => by rw [Entry.parse_setting, if_pos h], ?_, ?_, ?_⟩
  · intro hpath hurl
    rw [Entry.parse_setting, if_neg (by rw [hpath]; simp), hpath, hurl]
  · intro p expanded hpath hurl hexp
    rw [Entry.parse_setting, if_neg (by rw [hurl]; simp), hpath]
    dsimp only
    rw [hexp]
  · intro u hurl hpath
    rw [Entry.parse_setting, if_neg (by rw [hpath]; simp), hpath]
    dsimp only
    rw [hurl]

/-- Witness for origin exclusivity at the four concrete setting shapes. -/
theorem parse_setting_origin_exclusivity_witness :
    Entry.parse_setting some "e" none { url := some "u", path := some "p" } =
        .err "e" "One of Path or URL are allowed" ∧
      Entry.parse_setting some "e" none {} =
        .err "e" "Path nor URL are not found" ∧
      Entry.parse_setting some "e" none { path := some "p" } =
        .ok (.Local "e" none "p" { path := some "p" }) ∧
      Entry.parse_setting some "e" none { url := some "u" } =
        .ok (.Remote "e" none "u" { url := some "u" }) :=
  ⟨(parse_setting_origin_exclusivity some "e" none _).1 ⟨rfl, rfl⟩,
    (parse_setting_origin_exclusivity some "e" none _).2.1 rfl rfl,
    (parse_setting_origin_exclusivity some "e" none _).2.2.1 "p" "p" rfl rfl
      rfl,
    (parse_setting_origin_exclusivity some "e" none _).2.2.2 "u" rfl rfl⟩

/-- C10: for a `Local` entry record, the configured path is shell-expanded
before being stored, and a failing expansion (for example a reference to an
undefined environment variable) makes `parse_setting` panic through
`unwrap()` instead of returning an error value. -/
theorem parse_setting_expansion_panics (expand : String → Option String)
    (name : String) (version : Option SemVersion) (setting : EntrySetting)
    (p : String) (hpath : setting.path = some p) (hurl : setting.url = none) :
    (∀ q, expand p = some q →
        Entry.parse_setting expand name version setting =
          .ok (.Local name version q setting)) ∧
      (expand p = none →
        Entry.parse_setting expand name version setting = .panicked) := by
  constructor
  · intro q hq
    rw [Entry.parse_setting, if_neg (by rw [hurl]; simp), hpath]
    dsimp only
    rw [hq]
  · intro hq
    rw [Entry.parse_setting, if_neg (by rw [hurl]; simp), hpath]
    dsimp only
    rw [hq]

/-- Witness for the expansion panic at a path referencing an undefined
environment variable (the expansion oracle fails on it). -/
theorem parse_setting_expansion_panics_witness :
    Entry.parse_setting (fun _ => none) "e" none
        { path := some "$UNDEFINED_VAR/src" } = .panicked :=
  (parse_setting_expansion_panics (fun _ => none) "e" none
      { path := some "$UNDEFINED_VAR/src" } "$UNDEFINED_VAR/src" rfl rfl).2
    rfl

/-- The `load_entry` loop is a single interleaved first-match search: it
returns the first entry matched either by exact name or by
version-requirement, in sequence order. -/
theorem load_entryList_eq_find (entries : List Entry) (name : String) :
    load_entryList entries name =
      match entries.find? (entryHit name) with
      | some e => .ok e
      | none => .error (.invalidEntry name "Entry not found") := by
  induction entries with
  | nil => rfl
  | cons e rest ih =>
    rw [load_entryList]
    by_cases h1 : e.name = name
    · have he : entryHit name e = true := by simp [entryHit, h1]
      rw [if_pos h1, List.find?_cons_of_pos _ he]
    · rw [if_neg h1]
      rcases hv : e.version with _ | v
      · have he : entryHit name e = false := by simp [entryHit, h1, hv]
        dsimp only
        rw [List.find?_cons_of_neg _ (by rw [he]; exact Bool.false_ne_true),
          ih]
      · rcases hr : parseReq name with _ | req
        · have he : entryHit name e = false := by simp [entryHit, h1, hv, hr]
          dsimp only
          rw [List.find?_cons_of_neg _ (by rw [he]; exact Bool.false_ne_true),
            ih]
        · dsimp only
          by_cases hm : req.matches v = true
          · have he : entryHit name e = true := by simp [entryHit, hv, hr, hm]
            rw [if_pos hm, List.find?_cons_of_pos _ he]
          · have he : entryHit name e = false := by
              simp [entryHit, h1, hv, hr]
              simpa using hm
            rw [if_neg hm,
              List.find?_cons_of_neg _ (by rw [he]; exact Bool.false_ne_true),
              ih]

/-- C3 (amended): catalog resolution is a single interleaved pass over the
merged sequence (user entries followed by the built-ins): the first entry
that matches either by exact name equality or by version-requirement
satisfaction is returned, so a version match on an earlier entry shadows an
exact-name match on a later one; only when no entry matches either way does
resolution fail with `InvalidEntry`. -/
theorem load_entry_single_pass (userEntries : List Entry) (name : String) :
    load_entry userEntries name =
      match (userEntries ++ official_releases).find? (entryHit name) with
      | some e => .ok e
      | none => .error (.invalidEntry name "Entry not found") :=
  load_entryList_eq_find (userEntries ++ official_releases) name

/-- C3 (counterexample): resolving the query `"17.0.0"` against the merged
catalog (no user entries) returns the built-in 17.0.2 entry — the query,
parsed as the caret requirement `^17.0.0`, matches the earlier 17.0.2 entry
before the exact-name entry is reached — even though an entry named exactly
`"17.0.0"` exists in the sequence. -/
theorem load_entry_version_shadows_exact_name :
    load_entry [] "17.0.0" = .ok (Entry.official 17 0 2) ∧
      (Entry.official 17 0 2).name = "17.0.2" ∧
      (([] ++ official_releases).map Entry.name).contains "17.0.0" = true :=
  ⟨rfl, rfl, rfl⟩

/-- C4 (counterexample): an archive item whose iterator entry is `Err`
panics through `expect("Invalid tar entry")` and aborts the whole
extraction — the healthy entry after it is not extracted, although
extracting it alone succeeds. -/
theorem extract_aborts_on_unreadable_entry :
    extractEntries ["dest"] "llvm"
        [⟨false, none, .ok⟩, ⟨true, some ["top", "a"], .ok⟩] = none ∧
      extractEntries ["dest"] "llvm" [⟨true, some ["top", "a"], .ok⟩] =
        some ⟨[["dest", "llvm", "a"]], [], []⟩ :=
  ⟨rfl, rfl⟩

/-- C4 (amended): when every archive item is readable and carries a valid
unicode path, extraction never aborts: every entry is processed in order,
`AlreadyExists` unpack failures are tolerated (logged at debug level, not
as warnings), any other unpack failure only adds a warning and skips that
entry, and unpack failures never prevent the remaining entries from being
extracted.  An unreadable item or an invalid-unicode path, however, panics
and aborts the run (see the counterexample). -/
theorem extract_unpack_failures_tolerated (dest : List String)
    (toolName : String) (items : List TarItem)
    (h : ∀ i ∈ items, i.readOk = true ∧ i.path.isSome) :
    extractEntries dest toolName items =
      some
        ⟨(items.filter (fun i => i.unpack == .ok)).map
            (fun i => remapTarget dest toolName (i.path.getD [])),
          (items.filter (fun i => i.unpack == .alreadyExists)).map
            (fun i => remapTarget dest toolName (i.path.getD [])),
          (items.filter (fun i => i.unpack == .otherErr)).map
            (fun i => remapTarget dest toolName (i.path.getD []))⟩ := by
  induction items with
  | nil => rfl
  | cons i rest ih =>
    obtain ⟨hr, hp⟩ := h i (List.mem_cons_self i rest)
    have hrest := ih (fun j hj => h j (List.mem_cons_of_mem i hj))
    rcases hps : i.path with _ | p
    · rw [hps] at hp; cases hp
    · rw [extractEntries, hrest]
      rcases hu : i.unpack with _ | _ | _ <;>
        simp [hr, hps, hu, List.filter_cons]

/-- Witness for tolerated unpack failures: a three-entry archive with one
hard unpack failure, one already-exists failure and one success extracts
the success, tolerates the already-exists entry and warns about the other,
aborting nothing. -/
theorem extract_unpack_failures_tolerated_witness :
    extractEntries ["d"] "llvm"
        [⟨true, some ["top", "x"], .otherErr⟩,
          ⟨true, some ["top", "y"], .alreadyExists⟩,
          ⟨true, some ["top", "z"], .ok⟩] =
      some ⟨[["d", "llvm", "z"]], [["d", "llvm", "y"]], [["d", "llvm", "x"]]⟩ :=
  extract_unpack_failures_tolerated ["d"] "llvm" _ (by decide)

/-- C5 (counterexample): discarding the source cache of an entry whose
source directory is already absent fails with the `NotFound` filesystem
error annotated with the path — absence is not treated as success. -/
theorem clean_cache_dir_absent_fails :
    Entry.clean_cache_dir (fun _ => .absent) (Entry.official 18 1 0) =
      .error (.fsNotFound "/cache-root/cargo-llvm/18.1.0") := rfl

/-- C5 (amended): `clean_build_dir` applied to an already-absent build
directory succeeds — but only because `build_dir` lazily creates the
directory before it is deleted — while `clean_cache_dir` applied to an
already-absent source directory fails with the underlying `NotFound`
filesystem error annotated with the path; genuine deletion failures
(permissions) surface the underlying filesystem error from both. -/
theorem clean_dir_absent_behaviour (fs : FsModel) (e : Entry) :
    (fs e.src_dir = .absent →
        Entry.clean_cache_dir fs e = .error (.fsNotFound e.src_dir)) ∧
      (fs e.src_dir = .present false →
        Entry.clean_cache_dir fs e =
          .error (.fsPermissionDenied e.src_dir)) ∧
      (fs e.src_dir = .present true →
        (Entry.clean_cache_dir fs e).isOk = true) ∧
      (fs (pathJoin e.src_dir "build") = .absent →
        (Entry.clean_build_dir fs e).isOk = true) ∧
      (fs (pathJoin e.src_dir "build") = .present false →
        Entry.clean_build_dir fs e =
          .error (.fsPermissionDenied (pathJoin e.src_dir "build"))) ∧
      (fs (pathJoin e.src_dir "build") = .present true →
        (Entry.clean_build_dir fs e).isOk = true) := by
  refine ⟨?_, ?_, ?_, ?_, ?_, ?_⟩ <;> intro h <;>
    simp [Entry.clean_cache_dir, Entry.clean_build_dir, Entry.build_dir,
      remove_dir_all, create_dir_all, h, Except.isOk, Except.toBool]

/-- Witness for the directory-cleaning behaviour at concrete filesystem
states: absent cache dir errors, absent build dir succeeds, protected cache
dir surfaces the permission error. -/
theorem clean_dir_absent_behaviour_witness :
    Entry.clean_cache_dir (fun _ => .absent) (Entry.official 17 0 0) =
        .error (.fsNotFound "/cache-root/cargo-llvm/17.0.0") ∧
      (Entry.clean_build_dir (fun _ => .absent)
          (Entry.official 17 0 0)).isOk = true ∧
      Entry.clean_cache_dir (fun _ => .present false)
          (Entry.official 17 0 0) =
        .error (.fsPermissionDenied "/cache-root/cargo-llvm/17.0.0") :=
  ⟨(clean_dir_absent_behaviour (fun _ => .absent) (Entry.official 17 0 0)).1
      rfl,
    (clean_dir_absent_behaviour (fun _ => .absent)
        (Entry.official 17 0 0)).2.2.2.1 rfl,
    (clean_dir_absent_behaviour (fun _ => .present false)
        (Entry.official 17 0 0)).2.1 rfl⟩

/-- C1 (code evidence): `Entry::build` never executes the configure step.
At the official 18.1.0 entry with `nproc = 4`: even with an exit-status
oracle that fails exactly the configure command (exit 1), `build` succeeds,
and its trace shows the configure command line constructed but only the
build-and-install command executed; when the build-and-install command
itself exits non-zero, that — and only that — surfaces as a `CommandError`
carrying the command line. -/
theorem build_runs_only_build_step :
    (buildRun
        (fun c =>
          if c = configure_cmd_line (Entry.official 18 1 0) false false
          then 1 else 0)
        (Entry.official 18 1 0) 4 false false =
      (.ok (),
        ⟨[configure_cmd_line (Entry.official 18 1 0) false false,
            build_cmd_line (Entry.official 18 1 0) 4],
          [build_cmd_line (Entry.official 18 1 0) 4]⟩)) ∧
      configure_cmd_line (Entry.official 18 1 0) false false ∉
        [build_cmd_line (Entry.official 18 1 0) 4] ∧
      (buildRun (fun _ => 1) (Entry.official 18 1 0) 4 false false).1 =
        .error (.commandError (build_cmd_line (Entry.official 18 1 0) 4) 1) := by
  refine ⟨rfl, by decide, rfl⟩
